import Mathlib

/-!
# Verification of the chronobiology analysis engine

A shallow embedding of the `chronobiology` package's core analysis engine
(class `CycleAnalyzer` and the `DBQuery.get_data` time filtering), together
with theorems settling the frozen claims about it.  The implementation file
of the repository is not among the staged sources (only its documentation,
`README.md` and `docs/`, is), so every definition below is modelled from the
specification's words and the documented examples; each doc comment records
what was modelled.

Instants and durations are nanosecond counts (`Int`), matching the
`datetime64[ns]` / `timedelta64[ns]` representation the documentation
prescribes.  Fractional quantities (bout coverage, IS/IV) are rationals.
-/

namespace Chronobiology

/-- Nanoseconds per second. -/
def nsPerSec : Int := 1000000000

/-- Nanoseconds per minute. -/
def nsPerMin : Int := 60 * nsPerSec

/-- Nanoseconds per hour. -/
def nsPerHour : Int := 60 * nsPerMin

/-- Nanoseconds per day. -/
def nsPerDay : Int := 24 * nsPerHour

/-! ## Clock-style string parsing -/

/-- Parse a nonempty run of decimal digits as a natural number.
Modelled from the spec: the clock parsers accept decimal components. -/
def parseNatChars (cs : List Char) : Option Nat :=
  if cs ≠ [] ∧ cs.all Char.isDigit then
    some (cs.foldl (fun n c => 10 * n + (c.toNat - 48)) 0)
  else
    none

/-- Split a character list on the colon character. -/
def splitOnColon : List Char → List (List Char)
  | [] => [[]]
  | c :: cs =>
    if c = ':' then [] :: splitOnColon cs
    else
      match splitOnColon cs with
      | [] => [[c]]
      | g :: gs => (c :: g) :: gs

/-- Modelled from the spec: the duration-string parser for clock-style
strings `"[H]H[:MM[:SS]]"` (so `"03:43:40"` is 3 h 43 min 40 s and
`"06:00"` is 6 hours), returning nanoseconds.  Unparseable strings yield
`none` (`InvalidTimespec`). -/
def parseClockDuration (s : String) : Option Int :=
  match (splitOnColon s.data).mapM parseNatChars with
  | some [h] => some ((h : Int) * nsPerHour)
  | some [h, m] =>
    if m < 60 then some ((h : Int) * nsPerHour + (m : Int) * nsPerMin) else none
  | some [h, m, sec] =>
    if m < 60 ∧ sec < 60 then
      some ((h : Int) * nsPerHour + (m : Int) * nsPerMin + (sec : Int) * nsPerSec)
    else none
  | _ => none

/-- Modelled from the spec: the clock-of-day parser for night boundaries,
distinct from the duration parser: `'6'`, `'06'`, `'6:00'` and `'06:00'`
all denote the same offset from the beginning of a day, and any of `'0'`,
`'00'`, `'0:00'`, `'00:00'`, `'24'`, `'24:00'` denotes the day end
(offset 0 resp. 24 h). -/
def parseClockTime (s : String) : Option Int :=
  match (splitOnColon s.data).mapM parseNatChars with
  | some [h] =>
    if h ≤ 24 then some ((h : Int) * nsPerHour) else none
  | some [h, m] =>
    if (h < 24 ∧ m < 60) ∨ (h = 24 ∧ m = 0) then
      some ((h : Int) * nsPerHour + (m : Int) * nsPerMin)
    else none
  | _ => none

/-! ## Timespec normalizer -/

/-- A heterogeneous time-like input: a duration-like string, an integer
nanosecond count, or a native duration value (already in nanoseconds). -/
inductive Timespec where
  | str (s : String)
  | ns (n : Int)
  | dur (d : Int)

/-- Modelled from the spec: the timespec normalizer converts a duration
string, an integer nanosecond count, or a native duration into one canonical
`Duration` (nanoseconds); `none` stands for `InvalidTimespec`. -/
def Timespec.normalize : Timespec → Option Int
  | .str s => parseClockDuration s
  | .ns n => some n
  | .dur d => some d

/-! ## Bout segmenter -/

/-- Helper of `boutGroups`: `prev` is the previously seen instant, `acc` the
current group accumulated in reverse. -/
def boutGroupsGo (maxGap : Int) (prev : Int) (acc : List Int) :
    List Int → List (List Int)
  | [] => [acc.reverse]
  | t :: ts =>
    if t - prev ≤ maxGap then boutGroupsGo maxGap t (t :: acc) ts
    else acc.reverse :: boutGroupsGo maxGap t [t] ts

/-- Modelled from the spec: greedily group consecutive activity instants
whose successive gap is at most `maxGap` (inclusive comparison) into
candidate bouts. -/
def boutGroups (maxGap : Int) : List Int → List (List Int)
  | [] => []
  | t :: ts => boutGroupsGo maxGap t [t] ts

/-- Modelled from the spec: `activity_bouts(max_gap, min_duration,
min_count)` — candidate bout boundaries are the first and last instant of a
group (zero-width for a singleton group); a candidate survives iff its event
count is at least `minCount` and its duration at least `minDuration`
(inclusive lower bounds). -/
def activityBouts (maxGap minDuration : Int) (minCount : Nat)
    (ts : List Int) : List (Int × Int) :=
  (boutGroups maxGap ts).filterMap fun g =>
    match g with
    | [] => none
    | t :: rest =>
      let last := (t :: rest).getLastD t
      if minCount ≤ (t :: rest).length ∧ minDuration ≤ last - t then
        some (t, last)
      else none

/-! ## Night-schedule resolver -/

/-- A night specification: either one boundary list applied to every day, or
one boundary list per day. -/
inductive NightInput where
  | single (bs : List Timespec)
  | perDay (bss : List (List Timespec))

/-- Modelled from the spec: a night boundary resolves via the clock-of-day
parser (strings) or directly (integer nanoseconds / native durations). -/
def nightBoundaryOffset : Timespec → Option Int
  | .str s => parseClockTime s
  | .ns n => some n
  | .dur d => some d

/-- Flatten per-day boundary lists in day order, tagging every boundary with
its owning day; `d` is the index of the first day. -/
def flattenWithDay : Nat → List (List Int) → List (Int × Nat)
  | _, [] => []
  | d, bs :: rest => bs.map (fun b => (b, d)) ++ flattenWithDay (d + 1) rest

/-- Modelled from the spec: walk the flattened boundaries two at a time; a
pair `(s, e)` becomes a night interval owned by the day of `s`, and an end
not later than its start wraps past midnight (`('18:00','06:00')` means
18:00–24:00 of the current day plus 00:00–06:00 of the next).  The interval
is stored as offsets from the owning day's start, the end offset possibly
exceeding 24 h for a wrapped or carried-over interval. -/
def pairUp : List (Int × Nat) → List (Nat × Int × Int)
  | (s, ds) :: (e, de) :: rest =>
    let startAbs := (ds : Int) * nsPerDay + s
    let endAbs0 := (de : Int) * nsPerDay + e
    let endAbs := if endAbs0 ≤ startAbs then endAbs0 + nsPerDay else endAbs0
    (ds, s, endAbs - (ds : Int) * nsPerDay) :: pairUp rest
  | _ => []

/-- Collect, for each day below `totalDays`, the night intervals owned by
that day, in order. -/
def buildSchedule (totalDays : Nat) (pairs : List (Nat × Int × Int)) :
    List (List (Int × Int)) :=
  (List.range totalDays).map fun d =>
    pairs.filterMap fun p => if p.1 = d then some p.2 else none

/-- Modelled from the spec: a boundary outside `[0, 24h]` is a malformed
day-end marker — a marker at or past the day boundary that is not exactly
24 h-aligned. -/
def misalignedBoundary (b : Int) : Prop := b < 0 ∨ nsPerDay < b

instance (b : Int) : Decidable (misalignedBoundary b) := by
  unfold misalignedBoundary; infer_instance

/-- Modelled from the spec: validate and resolve already-normalized night
boundaries into the per-day table; `InvalidNightSchedule` iff the flattened
boundary count is odd or some day-end marker is misaligned. -/
def resolveOffsets (totalDays : Nat) (bss : List (List Int)) :
    Except String (List (List (Int × Int))) :=
  if (flattenWithDay 0 bss).length % 2 = 1 ∨
      ∃ p ∈ flattenWithDay 0 bss, misalignedBoundary p.1 then
    .error "InvalidNightSchedule"
  else
    .ok (buildSchedule totalDays (pairUp (flattenWithDay 0 bss)))

/-- Expand a single shared night pattern to all days. -/
def expandNight (totalDays : Nat) : NightInput → List (List Timespec)
  | .single bs => List.replicate totalDays bs
  | .perDay bss => bss

/-- Modelled from the spec: the full night-schedule resolver — parse every
boundary, then validate and resolve. -/
def resolveNight (totalDays : Nat) (inp : NightInput) :
    Except String (List (List (Int × Int))) :=
  match (expandNight totalDays inp).mapM (fun bs => bs.mapM nightBoundaryOffset) with
  | none => .error "InvalidTimespec"
  | some bss => resolveOffsets totalDays bss

/-! ## Day-frame builder -/

/-- The canonical analysis window plus the window-filtered activity. -/
structure Frame where
  start : Int
  stop : Int
  totalDays : Nat
  activity : List Int
  deriving DecidableEq

/-- Start of the calendar day containing `t`. -/
def floorDay (t : Int) : Int := nsPerDay * (t / nsPerDay)

/-- Modelled from the spec: the day-frame builder.  Default start is the
start of the day of the first activity instant; the provisional stop is the
explicit stop or the end of the day of the last instant; the adjusted stop is
the smallest `start + k · 1day` at or past the provisional stop; retained
activity is every instant in `[start, provisional stop)`; `none` stands for
`InvalidWindow` (stop not after start, or no activity and no explicit
window). -/
def mkFrame (ts : List Int) (startOpt stopOpt : Option Int) : Option Frame :=
  match startOpt <|> (ts.head?.map floorDay) with
  | none => none
  | some s =>
    match stopOpt <|> (ts.getLast?.map (fun t => floorDay t + nsPerDay)) with
    | none => none
    | some p =>
      if p ≤ s then none
      else
        some { start := s,
               stop := s + ((p - s + nsPerDay - 1) / nsPerDay) * nsPerDay,
               totalDays := ((p - s + nsPerDay - 1) / nsPerDay).toNat,
               activity := ts.filter (fun t => decide (s ≤ t) && decide (t < p)) }

/-! ## Analyzer state -/

/-- The analyzer's owned state: the window, the window-filtered timestamps,
the day mask, the cached bout set, the resolved night schedule and the
default parameters. -/
structure Analyzer where
  start : Int
  stop : Int
  totalDays : Nat
  timestamps : List Int
  mask : List Bool
  bouts : List (Int × Int)
  night : List (List (Int × Int))
  step : Int
  max_gap : Int
  min_duration : Int
  min_count : Nat
  activity_threshold : Nat
  deriving DecidableEq

/-- Modelled from the spec: for each day `d` below `totalDays`, the mask
holds iff the number of instants inside day `d`'s `[start, end)` reaches the
threshold. -/
def computeMask (start : Int) (totalDays : Nat) (ts : List Int)
    (threshold : Nat) : List Bool :=
  (List.range totalDays).map fun d =>
    decide (threshold ≤ ts.countP fun t =>
      decide (start + (d : Int) * nsPerDay ≤ t) &&
      decide (t < start + ((d : Int) + 1) * nsPerDay))

/-- The `activity` property: the window-filtered instants of the days the
mask keeps. -/
def Analyzer.activity (a : Analyzer) : List Int :=
  a.timestamps.filter fun t =>
    a.mask.getD ((t - a.start) / nsPerDay).toNat false

/-- Modelled from the spec: `filter_inactive(threshold)` recomputes the day
mask from the window-filtered timestamps and the new threshold, superseding
the prior mask. -/
def filter_inactive (threshold : Nat) (a : Analyzer) : Analyzer :=
  { a with mask := computeMask a.start a.totalDays a.timestamps threshold,
           activity_threshold := threshold }

/-- Modelled from the spec: `adjust_bouts`/`update_bouts` recomputes the
bouts from the current activity and replaces the cached bout set, remembering
the parameters as the new defaults. -/
def update_bouts (g d : Int) (c : Nat) (a : Analyzer) : Analyzer :=
  { a with bouts := activityBouts g d c a.activity,
           max_gap := g, min_duration := d, min_count := c }

/-- Modelled from the spec: the `activity_bouts` method call in
state-passing form — it returns the computed bouts and leaves the analyzer
state as it was (it does not update `self.bouts`). -/
def activity_bouts_call (g d : Int) (c : Nat) (a : Analyzer) :
    List (Int × Int) × Analyzer :=
  (activityBouts g d c a.activity, a)

/-- Modelled from the spec: the analyzer constructor — build the day frame,
resolve the night schedule, compute the initial mask and the initial cached
bouts; any validation error aborts construction with no state produced. -/
def mkAnalyzer (ts : List Int) (nightInp : NightInput) (stepD : Int)
    (startOpt stopOpt : Option Int) (g dmin : Int) (c threshold : Nat) :
    Except String Analyzer :=
  match mkFrame ts startOpt stopOpt with
  | none => .error "InvalidWindow"
  | some f =>
    match resolveNight f.totalDays nightInp with
    | .error e => .error e
    | .ok sched =>
      let a0 : Analyzer :=
        { start := f.start, stop := f.stop, totalDays := f.totalDays,
          timestamps := f.activity,
          mask := computeMask f.start f.totalDays f.activity threshold,
          bouts := [], night := sched, step := stepD, max_gap := g,
          min_duration := dmin, min_count := c, activity_threshold := threshold }
      .ok { a0 with bouts := activityBouts g dmin c a0.activity }

/-! ## Time-range selection -/

/-- Start-inclusive, stop-exclusive window membership; `none` means no
boundary on that side. -/
def inWindow (startOpt stopOpt : Option Int) (t : Int) : Bool :=
  (match startOpt with | some s => decide (s ≤ t) | none => true) &&
  (match stopOpt with | some p => decide (t < p) | none => true)

/-- Modelled from the spec: `get_data`-style time filtering of a timestamp
array — keep records with `start ≤ time < stop`. -/
def get_data (startOpt stopOpt : Option Int) (ts : List Int) : List Int :=
  ts.filter (inWindow startOpt stopOpt)

/-- Modelled from the spec: `select_dates(start, stop)` on activity events —
the mask-filtered activity restricted to `start ≤ time < stop`. -/
def select_dates (startOpt stopOpt : Option Int) (a : Analyzer) : List Int :=
  a.activity.filter (inWindow startOpt stopOpt)

/-! ## Discretizer -/

/-- Number of bins: `⌈(stop - start) / step⌉` (the final bin is truncated
when the window is not a whole number of steps). -/
def numBins (start stop step : Int) : Nat :=
  ((stop - start + step - 1) / step).toNat

/-- Modelled from the spec: bin intervals `[start + k·step, start +
(k+1)·step)`, the last clipped at `stop`. -/
def binList (start stop step : Int) : List (Int × Int) :=
  (List.range (numBins start stop step)).map fun k =>
    (start + (k : Int) * step, min (start + ((k : Int) + 1) * step) stop)

/-- Overlap length of two intervals (standard interval intersection). -/
def overlap (i j : Int × Int) : Int := max 0 (min i.2 j.2 - max i.1 j.1)

/-- Modelled from the spec: bout coverage of a bin — the summed overlap of
all bouts with the bin, divided by the bin width, clamped to at most 1. -/
def boutCoverage (bouts : List (Int × Int)) (b : Int × Int) : ℚ :=
  min 1 ((((bouts.map fun p => overlap p b).sum : Int) : ℚ) /
    (((b.2 - b.1 : Int) : ℚ)))

/-- Modelled from the spec: `discretize(step, bouts=False)` — bin start
times and per-bin event counts. -/
def discretizeEvents (start stop step : Int) (ts : List Int) :
    List Int × List Nat :=
  let bs := binList start stop step
  (bs.map Prod.fst,
   bs.map fun b => ts.countP fun t => decide (b.1 ≤ t) && decide (t < b.2))

/-- Modelled from the spec: `discretize(step, bouts=True)` — bin start times
and per-bin fractional bout coverage. -/
def discretizeBouts (start stop step : Int) (bouts : List (Int × Int)) :
    List Int × List ℚ :=
  let bs := binList start stop step
  (bs.map Prod.fst, bs.map (boutCoverage bouts))

/-! ## Interdaily stability and intradaily variability -/

/-- Mean of a list of rationals (0 for the empty list, by `q / 0 = 0`). -/
def listMean (xs : List ℚ) : ℚ := xs.sum / (xs.length : ℚ)

/-- Population variance of a list of rationals. -/
def listVar (xs : List ℚ) : ℚ :=
  ((xs.map fun x => (x - listMean xs) ^ 2).sum) / (xs.length : ℚ)

/-- Per-bin-of-day pattern: the mean across days of each bin position. -/
def colMeans (nbins : Nat) (rows : List (List ℚ)) : List ℚ :=
  (List.range nbins).map fun i => listMean (rows.filterMap fun r => r.get? i)

/-- Successive differences of a list. -/
def succDiffs : List ℚ → List ℚ
  | x :: y :: rest => (y - x) :: succDiffs (y :: rest)
  | _ => []

/-- Modelled from the spec: interdaily stability — the ratio of the variance
of the per-bin pattern averaged across all valid days to the variance of all
individual bin values.  The formula divides by the overall variance, so it
defines no value when that variance vanishes (`none`; floating point would
produce 0/0). -/
def interdaily_stability (nbins : Nat) (rows : List (List ℚ)) : Option ℚ :=
  if listVar rows.flatten = 0 then none
  else some (listVar (colMeans nbins rows) / listVar rows.flatten)

/-- Modelled from the spec: intradaily variability (the pooled, all-days
value) — the mean squared successive bin-to-bin difference divided by the
overall variance; as with IS, undefined when the overall variance
vanishes. -/
def intradaily_variability (rows : List (List ℚ)) : Option ℚ :=
  if listVar rows.flatten = 0 then none
  else some (listMean ((succDiffs rows.flatten).map fun d => d ^ 2) / listVar rows.flatten)

/-! ## Helper lemmas -/

/-- `inWindow` holds exactly when every present boundary is respected,
start-inclusively and stop-exclusively. -/
lemma inWindow_eq_true_iff (so po : Option Int) (t : Int) :
    inWindow so po t = true ↔
      (∀ s, so = some s → s ≤ t) ∧ (∀ p, po = some p → t < p) := by
  cases so <;> cases po <;> simp [inWindow]

/-- A list of rationals all equal to `c` has zero population variance (the
empty list too, by the `q / 0 = 0` convention). -/
lemma listVar_const (xs : List ℚ) (c : ℚ) (h : ∀ x ∈ xs, x = c) :
    listVar xs = 0 := by
  rcases eq_or_ne xs [] with rfl | hne
  · simp [listVar, listMean]
  · have hlen : (xs.length : ℚ) ≠ 0 := by
      simpa using (List.length_pos.mpr hne).ne'
    have hx : xs = List.replicate xs.length c := List.eq_replicate_iff.mpr ⟨rfl, h⟩
    have hmean : listMean xs = c := by
      simp only [listMean]
      rw [hx, List.sum_replicate, List.length_replicate, nsmul_eq_mul]
      exact mul_div_cancel_left₀ c hlen
    have hzero : ∀ y ∈ xs.map (fun x => (x - listMean xs) ^ 2), y = 0 := by
      intro y hy
      rcases List.mem_map.mp hy with ⟨x, hxx, rfl⟩
      rw [hmean, h x hxx]
      ring
    simp only [listVar]
    rw [List.sum_eq_zero hzero, zero_div]

/-- Invariant form of the within-group chain property of `boutGroupsGo`. -/
lemma boutGroupsGo_chain (maxGap : Int) :
    ∀ (ts : List Int) (prev : Int) (acc : List Int),
      acc.head? = some prev →
      List.Chain' (fun a b => b - a ≤ maxGap) acc.reverse →
      ∀ g ∈ boutGroupsGo maxGap prev acc ts,
        List.Chain' (fun a b => b - a ≤ maxGap) g := by
  intro ts
  induction ts with
  | nil =>
    intro prev acc hhead hchain g hg
    simp only [boutGroupsGo, List.mem_singleton] at hg
    subst hg
    exact hchain
  | cons t ts ih =>
    intro prev acc hhead hchain g hg
    rw [boutGroupsGo] at hg
    by_cases hgap : t - prev ≤ maxGap
    · rw [if_pos hgap] at hg
      refine ih t (t :: acc) rfl ?_ g hg
      rw [List.reverse_cons]
      refine List.chain'_append.mpr ⟨hchain, List.chain'_singleton t, ?_⟩
      intro x hx y hy
      rw [List.getLast?_reverse, hhead] at hx
      simp only [Option.mem_def, Option.some.injEq, List.head?_cons] at hx hy
      subst hx
      subst hy
      exact hgap
    · rw [if_neg hgap] at hg
      rcases List.mem_cons.mp hg with rfl | hg'
      · exact hchain
      · exact ih t [t] rfl (List.chain'_singleton t) g hg'

/-- Within every emitted group, successive gaps are at most `maxGap`. -/
lemma boutGroups_chain (maxGap : Int) (ts : List Int) :
    ∀ g ∈ boutGroups maxGap ts, List.Chain' (fun a b => b - a ≤ maxGap) g := by
  cases ts with
  | nil => intro g hg; simp [boutGroups] at hg
  | cons t ts => exact boutGroupsGo_chain maxGap ts t [t] rfl (by simp)

/-- `boutGroupsGo` emits at least one group, whose first element is the
earliest accumulated instant. -/
lemma boutGroupsGo_first (maxGap : Int) :
    ∀ (ts : List Int) (prev : Int) (acc : List Int), acc ≠ [] →
      ∃ g gs, boutGroupsGo maxGap prev acc ts = g :: gs ∧ g.head? = acc.getLast? := by
  intro ts
  induction ts with
  | nil =>
    intro prev acc hne
    exact ⟨acc.reverse, [], rfl, List.head?_reverse acc⟩
  | cons t ts ih =>
    intro prev acc hne
    rw [boutGroupsGo]
    by_cases hgap : t - prev ≤ maxGap
    · rw [if_pos hgap]
      rcases ih t (t :: acc) (List.cons_ne_nil t acc) with ⟨g, gs, heq, hhead⟩
      refine ⟨g, gs, heq, ?_⟩
      rw [hhead]
      rcases acc with _ | ⟨x, xs⟩
      · exact absurd rfl hne
      · exact List.getLast?_cons_cons
    · rw [if_neg hgap]
      exact ⟨acc.reverse, _, rfl, List.head?_reverse acc⟩

/-- Invariant form of the between-groups separation property. -/
lemma boutGroupsGo_sep (maxGap : Int) :
    ∀ (ts : List Int) (prev : Int) (acc : List Int), acc.head? = some prev →
      List.Chain' (fun g h => ∀ a ∈ g.getLast?, ∀ b ∈ h.head?, maxGap < b - a)
        (boutGroupsGo maxGap prev acc ts) := by
  intro ts
  induction ts with
  | nil => intro prev acc _; exact List.chain'_singleton _
  | cons t ts ih =>
    intro prev acc hhead
    rw [boutGroupsGo]
    by_cases hgap : t - prev ≤ maxGap
    · rw [if_pos hgap]
      exact ih t (t :: acc) rfl
    · rw [if_neg hgap]
      rcases boutGroupsGo_first maxGap ts t [t] (List.cons_ne_nil t []) with
        ⟨g, gs, heq, hheadg⟩
      rw [heq]
      refine List.chain'_cons'.mpr ⟨?_, ?_⟩
      · intro y hy a ha b hb
        simp only [List.head?_cons, Option.mem_def, Option.some.injEq] at hy
        subst hy
        rw [List.getLast?_reverse, hhead] at ha
        rw [hheadg] at hb
        simp only [Option.mem_def, Option.some.injEq, List.getLast?_singleton] at ha hb
        subst ha
        subst hb
        exact lt_of_not_le hgap
      · rw [← heq]
        exact ih t [t] rfl

/-- Between consecutive emitted groups the gap exceeds `maxGap` (a gap at
most `maxGap` always joins). -/
lemma boutGroups_sep (maxGap : Int) (ts : List Int) :
    List.Chain' (fun g h => ∀ a ∈ g.getLast?, ∀ b ∈ h.head?, maxGap < b - a)
      (boutGroups maxGap ts) := by
  cases ts with
  | nil => simp [boutGroups]
  | cons t ts => exact boutGroupsGo_sep maxGap ts t [t] rfl


/-- A pair is an emitted bout exactly when it is the first/last instant of
an emitted group that meets the inclusive count and duration thresholds. -/
lemma mem_activityBouts_iff (mg md : Int) (mc : Nat) (ts : List Int)
    (a b : Int) :
    (a, b) ∈ activityBouts mg md mc ts ↔
      ∃ g ∈ boutGroups mg ts, g.head? = some a ∧ g.getLast? = some b ∧
        mc ≤ g.length ∧ md ≤ b - a := by
  rw [activityBouts, List.mem_filterMap]
  constructor
  · rintro ⟨g, hg, hfg⟩
    rcases g with _ | ⟨t, rest⟩
    · simp at hfg
    · dsimp only at hfg
      split at hfg
      · rename_i hcond
        rcases Option.some.inj hfg with h2
        rcases Prod.mk.injEq .. ▸ h2 with ⟨rfl, rfl⟩
        refine ⟨t :: rest, hg, rfl, ?_, hcond.1, hcond.2⟩
        obtain ⟨x, hx⟩ := Option.isSome_iff_exists.mp
          (List.getLast?_isSome.mpr (List.cons_ne_nil t rest))
        rw [hx, List.getLastD_eq_getLast?, hx]
        rfl
      · exact absurd hfg (by simp)
  · rintro ⟨g, hg, hha, hhb, hlen, hdur⟩
    rcases g with _ | ⟨t, rest⟩
    · simp at hha
    · simp only [List.head?_cons, Option.some.injEq] at hha
      subst hha
      have hlast : (t :: rest).getLastD t = b := by
        rw [List.getLastD_eq_getLast?, hhb]
        rfl
      refine ⟨t :: rest, hg, ?_⟩
      dsimp only
      rw [hlast, if_pos ⟨hlen, hdur⟩]

/-- `mapM` over a replicated element succeeds pointwise. -/
lemma mapM_replicate {α β : Type} (f : α → Option β) (a : α) (b : β)
    (h : f a = some b) : ∀ n, (List.replicate n a).mapM f =
      some (List.replicate n b) := by
  intro n
  induction n with
  | zero => rfl
  | succ n ih =>
    rw [List.replicate_succ, List.mapM_cons, h, ih]
    rfl

/-- Unfolding `flattenWithDay` on a two-boundary day. -/
lemma flattenWithDay_cons (d : Nat) (a b : Int) (rest : List (List Int)) :
    flattenWithDay d ([a, b] :: rest) =
      (a, d) :: (b, d) :: flattenWithDay (d + 1) rest := rfl

/-- Resolving the shared pattern 18:00-06:00: every day pairs into the one
wrapped interval `(18h, 30h)` owned by that day. -/
lemma pairUp_everyday : ∀ (n d0 : Nat),
    pairUp (flattenWithDay d0
      (List.replicate n [18 * nsPerHour, 6 * nsPerHour])) =
      (List.range' d0 n).map fun d => (d, 18 * nsPerHour, 30 * nsPerHour) := by
  intro n
  induction n with
  | zero => intro d0; rfl
  | succ n ih =>
    intro d0
    rw [List.replicate_succ, flattenWithDay_cons, List.range'_succ]
    rw [pairUp]
    rw [ih (d0 + 1)]
    rw [List.map_cons]
    have hcond : (d0 : Int) * nsPerDay + 6 * nsPerHour ≤
        (d0 : Int) * nsPerDay + 18 * nsPerHour :=
      add_le_add_left (by norm_num [nsPerHour, nsPerMin, nsPerSec]) _
    rw [if_pos hcond]
    congr 2
    · norm_num [nsPerDay]
      ring

/-- Selecting the one index equal to `d` out of a contiguous index range. -/
lemma filterMap_range'_eq (v : Int × Int) (d : Nat) : ∀ (n d0 : Nat),
    (List.range' d0 n).filterMap
        (fun i => if i = d then some v else none) =
      if d0 ≤ d ∧ d < d0 + n then [v] else [] := by
  intro n
  induction n with
  | zero =>
    intro d0
    rw [if_neg (by omega)]
    rfl
  | succ n ih =>
    intro d0
    rw [List.range'_succ, List.filterMap_cons, ih (d0 + 1)]
    by_cases h1 : d0 = d
    · subst h1
      rw [if_pos rfl, if_neg (by omega), if_pos (by omega)]
    · rw [if_neg h1]
      by_cases h2 : d0 + 1 ≤ d ∧ d < d0 + 1 + n
      · rw [if_pos h2, if_pos (by omega)]
      · rw [if_neg h2, if_neg (by omega)]

/-- The per-day table for the shared 18:00-06:00 pattern gives every day
exactly the interval `(18h, 30h)`. -/
lemma buildSchedule_everyday (n : Nat) :
    buildSchedule n ((List.range' 0 n).map
        fun d => (d, 18 * nsPerHour, 30 * nsPerHour)) =
      List.replicate n [(18 * nsPerHour, 30 * nsPerHour)] := by
  refine List.eq_replicate_iff.mpr ⟨by simp [buildSchedule], ?_⟩
  intro b hb
  rcases List.mem_map.mp hb with ⟨d, hd, rfl⟩
  have hd' : d < n := List.mem_range.mp hd
  rw [List.filterMap_map]
  have : ((fun p => if (p : Nat × Int × Int).1 = d then some p.2 else none) ∘
      (fun i => ((i : Nat), (18 * nsPerHour : Int), (30 * nsPerHour : Int)))) =
      fun i => if i = d then some ((18 * nsPerHour : Int), (30 * nsPerHour : Int)) else none := by
    funext i
    by_cases h : i = d <;> simp [h]
  rw [this, filterMap_range'_eq _ d n 0, if_pos (by omega)]

/-- A replicated two-boundary pattern flattens to an even boundary count. -/
lemma flattenWithDay_length (a b : Int) : ∀ (n d0 : Nat),
    (flattenWithDay d0 (List.replicate n [a, b])).length = 2 * n := by
  intro n
  induction n with
  | zero => intro d0; rfl
  | succ n ih =>
    intro d0
    rw [List.replicate_succ, flattenWithDay_cons]
    simp only [List.length_cons, ih (d0 + 1)]
    omega

/-- Every flattened boundary of a replicated two-boundary pattern is one of
the two boundaries. -/
lemma flattenWithDay_fst (a b : Int) : ∀ (n d0 : Nat) (p : Int × Nat),
    p ∈ flattenWithDay d0 (List.replicate n [a, b]) → p.1 = a ∨ p.1 = b := by
  intro n
  induction n with
  | zero => intro d0 p hp; simp [flattenWithDay] at hp
  | succ n ih =>
    intro d0 p hp
    rw [List.replicate_succ, flattenWithDay_cons] at hp
    rcases List.mem_cons.mp hp with rfl | hp'
    · exact Or.inl rfl
    rcases List.mem_cons.mp hp' with rfl | hp2
    · exact Or.inr rfl
    · exact ih (d0 + 1) p hp2

/-! ## Claim theorems -/

/-- C1: for the bouts `[01:30,03:00]`, `[04:30,06:00]`, `[16:00,27:00]`
(minute:second) and a 5-minute step over the window `[00:00, 30:00)`,
bout-discretization yields exactly the six bins starting at `00:00`,
`05:00`, …, `25:00` with coverages `[0.4, 0.2, 0.0, 0.8, 1.0, 0.4]`; each
coverage equals the summed bout overlap divided by the bin width, and every
coverage lies in `[0, 1]` (in general, for any bouts and any positive-width
bin). -/
theorem C1_discretize_bouts_example :
    discretizeBouts 0 (30 * nsPerMin) (5 * nsPerMin)
        [(90 * nsPerSec, 180 * nsPerSec), (270 * nsPerSec, 360 * nsPerSec),
         (960 * nsPerSec, 1620 * nsPerSec)] =
      ([0, 5 * nsPerMin, 10 * nsPerMin, 15 * nsPerMin, 20 * nsPerMin,
        25 * nsPerMin],
       [2/5, 1/5, 0, 4/5, 1, 2/5]) ∧
    (binList 0 (30 * nsPerMin) (5 * nsPerMin)).map
        (fun b =>
          (((([(90 * nsPerSec, 180 * nsPerSec), (270 * nsPerSec, 360 * nsPerSec),
              (960 * nsPerSec, 1620 * nsPerSec)].map
                fun p => overlap p b).sum : Int) : ℚ) /
            ((b.2 - b.1 : Int) : ℚ))) =
      [2/5, 1/5, 0, 4/5, 1, 2/5] ∧
    (∀ c ∈ [(2 : ℚ)/5, 1/5, 0, 4/5, 1, 2/5], 0 ≤ c ∧ c ≤ 1) ∧
    (∀ (bouts : List (Int × Int)) (b : Int × Int), 0 < b.2 - b.1 →
      0 ≤ boutCoverage bouts b ∧ boutCoverage bouts b ≤ 1) := by
  have hbin : binList 0 (30 * nsPerMin) (5 * nsPerMin) =
      [(0, 5 * nsPerMin), (5 * nsPerMin, 10 * nsPerMin),
       (10 * nsPerMin, 15 * nsPerMin), (15 * nsPerMin, 20 * nsPerMin),
       (20 * nsPerMin, 25 * nsPerMin), (25 * nsPerMin, 30 * nsPerMin)] := by
    decide
  refine ⟨?_, ?_, by norm_num, fun bouts b hb => ⟨?_, min_le_left _ _⟩⟩
  · simp only [discretizeBouts, hbin, Prod.mk.injEq]
    constructor
    · decide
    · norm_num [boutCoverage, overlap, nsPerMin, nsPerSec, min_def, max_def]
  · rw [hbin]
    norm_num [overlap, nsPerMin, nsPerSec, min_def, max_def]
  refine le_min (by norm_num) (div_nonneg ?_ ?_)
  · have hsum : (0 : Int) ≤ (bouts.map fun p => overlap p b).sum := by
      refine List.sum_nonneg fun x hx => ?_
      rcases List.mem_map.mp hx with ⟨p, -, rfl⟩
      exact le_max_left 0 _
    exact_mod_cast hsum
  · exact_mod_cast hb.le

/-- C2: for every successfully constructed analysis window, the adjusted
stop differs from the start by an exact whole number of days, `totalDays`
is that number (equivalently, the difference divided by one day), and no
retained activity instant is at or past the originally requested stop. -/
theorem C2_frame_window_invariants (ts : List Int) (so po : Option Int)
    (f : Frame) (h : mkFrame ts so po = some f) :
    (f.stop - f.start) % nsPerDay = 0 ∧
    f.stop - f.start = (f.totalDays : Int) * nsPerDay ∧
    (f.totalDays : Int) = (f.stop - f.start) / nsPerDay ∧
    (∀ rstop, po = some rstop → ∀ t ∈ f.activity, t < rstop) := by
  have hday : (0 : Int) < nsPerDay := by
    norm_num [nsPerDay, nsPerHour, nsPerMin, nsPerSec]
  unfold mkFrame at h
  split at h
  · exact absurd h (by simp)
  next s hs =>
    split at h
    · exact absurd h (by simp)
    next p hp =>
      split at h
      · exact absurd h (by simp)
      next hps =>
        have hsp : s < p := lt_of_not_le hps
        have h1 : nsPerDay ≤ p - s + nsPerDay - 1 := by omega
        have hk1 : 1 ≤ (p - s + nsPerDay - 1) / nsPerDay := by
          have h2 := Int.ediv_le_ediv hday h1
          rwa [Int.ediv_self hday.ne'] at h2
        injection h with h
        subst h
        refine ⟨?_, ?_, ?_, ?_⟩
        · rw [add_sub_cancel_left]
          exact Int.mul_emod_left _ _
        · rw [add_sub_cancel_left,
            Int.toNat_of_nonneg (le_trans Int.one_nonneg hk1)]
        · rw [add_sub_cancel_left,
            Int.toNat_of_nonneg (le_trans Int.one_nonneg hk1),
            Int.mul_ediv_cancel _ hday.ne']
        · intro rstop hrs t ht
          rw [hrs] at hp
          simp at hp
          rcases (List.mem_filter.mp ht) with ⟨-, hpred⟩
          simp only [Bool.and_eq_true, decide_eq_true_eq] at hpred
          omega

/-- C3: for events at 01:30, 01:45 and 03:00, `activity_bouts` with a
20-minute `max_gap` yields exactly the bouts [01:30,01:45] and the
zero-width [03:00,03:00], while a 75-minute `max_gap` merges them into
[01:30,03:00]; in general consecutive events join the same bout iff their
gap is at most `max_gap` (inclusive), and a candidate bout survives iff its
event count and duration meet the inclusive lower bounds. -/
theorem C3_bout_segmentation :
    activityBouts (20 * nsPerMin) 0 1
        [90 * nsPerMin, 105 * nsPerMin, 180 * nsPerMin] =
      [(90 * nsPerMin, 105 * nsPerMin), (180 * nsPerMin, 180 * nsPerMin)] ∧
    activityBouts (75 * nsPerMin) 0 1
        [90 * nsPerMin, 105 * nsPerMin, 180 * nsPerMin] =
      [(90 * nsPerMin, 180 * nsPerMin)] ∧
    (∀ (maxGap : Int) (ts : List Int), ∀ g ∈ boutGroups maxGap ts,
      List.Chain' (fun a b => b - a ≤ maxGap) g) ∧
    (∀ (maxGap : Int) (ts : List Int),
      List.Chain' (fun g h => ∀ a ∈ g.getLast?, ∀ b ∈ h.head?, maxGap < b - a)
        (boutGroups maxGap ts)) ∧
    (∀ (mg md : Int) (mc : Nat) (ts : List Int) (a b : Int),
      (a, b) ∈ activityBouts mg md mc ts ↔
        ∃ g ∈ boutGroups mg ts, g.head? = some a ∧ g.getLast? = some b ∧
          mc ≤ g.length ∧ md ≤ b - a) :=
  ⟨by decide, by decide, boutGroups_chain, boutGroups_sep, mem_activityBouts_iff⟩

/-- C4: for `night=('18:00','06:00')` applied to every day, the resolved
schedule gives each of the `n` days exactly one interval, `(18h, 30h)` as
offsets from that day's start — which covers exactly [18h,24h) of the day
together with [0h,6h) of the next day — and the total resolved night
duration attributed to each day is exactly 12 hours. -/
theorem C4_night_everyday (n : Nat) :
    resolveNight n (.single [.str "18:00", .str "06:00"]) =
      .ok (List.replicate n [(18 * nsPerHour, 30 * nsPerHour)]) ∧
    (∀ day ∈ List.replicate n [(18 * nsPerHour, 30 * nsPerHour)],
      (day.map fun p => p.2 - p.1).sum = 12 * nsPerHour) ∧
    (∀ (d : Nat) (t : Int),
      ((d : Int) * nsPerDay + 18 * nsPerHour ≤ t ∧
        t < (d : Int) * nsPerDay + 30 * nsPerHour) ↔
      (((d : Int) * nsPerDay + 18 * nsPerHour ≤ t ∧
         t < (d : Int) * nsPerDay + 24 * nsPerHour) ∨
       (((d : Int) + 1) * nsPerDay ≤ t ∧
         t < ((d : Int) + 1) * nsPerDay + 6 * nsPerHour))) := by
  refine ⟨?_, ?_, ?_⟩
  · have hparse : [Timespec.str "18:00", Timespec.str "06:00"].mapM
        nightBoundaryOffset = some [18 * nsPerHour, 6 * nsPerHour] := by
      decide
    unfold resolveNight expandNight
    rw [mapM_replicate _ _ _ hparse n]
    dsimp only
    unfold resolveOffsets
    rw [if_neg ?hcond]
    case hcond =>
      rintro (hodd | ⟨p, hp, hmis⟩)
      · rw [flattenWithDay_length] at hodd
        omega
      · rcases flattenWithDay_fst _ _ n 0 p hp with h | h <;> rw [h] at hmis <;>
          exact absurd hmis (by decide)
    rw [pairUp_everyday n 0, buildSchedule_everyday n]
  · intro day hday
    rw [List.eq_of_mem_replicate hday]
    norm_num [nsPerHour, nsPerMin, nsPerSec]
  · intro d t
    simp only [nsPerDay, nsPerHour, nsPerMin, nsPerSec]
    push_cast
    constructor
    · intro h
      omega
    · intro h
      omega

/-- C5 counterexample: on the constant signal with value 5 over two days of
three bins, the IS/IV formulas divide a zero variance by a zero variance, so
interdaily stability does not return 1.0 and intradaily variability does not
return 0.0 — neither is defined there. -/
theorem C5_counterexample_constant_signal :
    interdaily_stability 3 [[(5 : ℚ), 5, 5], [5, 5, 5]] ≠ some 1 ∧
    interdaily_stability 3 [[(5 : ℚ), 5, 5], [5, 5, 5]] = none ∧
    intradaily_variability [[(5 : ℚ), 5, 5], [5, 5, 5]] ≠ some 0 ∧
    intradaily_variability [[(5 : ℚ), 5, 5], [5, 5, 5]] = none := by
  have hv : listVar [(5 : ℚ), 5, 5, 5, 5, 5] = 0 := by
    refine listVar_const _ 5 ?_
    intro x hx
    simp at hx
    exact hx
  refine ⟨?_, ?_, ?_, ?_⟩ <;>
    simp [interdaily_stability, intradaily_variability, hv]

/-- C5 amended: for every discretized signal that is constant-valued over
all bins of all valid days, the overall variance is zero, so the IS and IV
variance-ratio formulas are 0/0-indeterminate and define no value (`none`;
IEEE arithmetic would produce NaN) — rather than returning 1.0 and 0.0. -/
theorem C5_amended_degenerate_is_iv (nbins : Nat) (rows : List (List ℚ))
    (c : ℚ) (h : ∀ x ∈ rows.flatten, x = c) :
    interdaily_stability nbins rows = none ∧
    intradaily_variability rows = none := by
  have hv : listVar rows.flatten = 0 := listVar_const _ c h
  constructor <;> simp [interdaily_stability, intradaily_variability, hv]

/-- C5 amended, witnessed at the concrete constant signal of value 5 over
two days of three bins. -/
theorem C5_amended_degenerate_witness :
    interdaily_stability 3 [[(5 : ℚ), 5, 5], [5, 5, 5]] = none ∧
    intradaily_variability [[(5 : ℚ), 5, 5], [5, 5, 5]] = none :=
  C5_amended_degenerate_is_iv 3 [[(5 : ℚ), 5, 5], [5, 5, 5]] 5
    (by intro x hx; simp at hx; exact hx)

/-- C2, witnessed at the single event 10:00 with requested stop 25:00 (both
in hours from the epoch day start): the adjusted stop is 48 h, `totalDays`
is 2, and the event stays strictly before the requested stop. -/
theorem C2_frame_window_invariants_witness :
    ((172800000000000 : Int) - 0) % nsPerDay = 0 ∧
    (172800000000000 : Int) - 0 = ((2 : Nat) : Int) * nsPerDay ∧
    ((2 : Nat) : Int) = ((172800000000000 : Int) - 0) / nsPerDay ∧
    (∀ rstop, (some 90000000000000 : Option Int) = some rstop →
      ∀ t ∈ [(36000000000000 : Int)], t < rstop) :=
  C2_frame_window_invariants [36000000000000] none (some 90000000000000)
    ⟨0, 172800000000000, 2, [36000000000000]⟩ (by decide)

/-- C8: night-schedule resolution fails with `InvalidNightSchedule` exactly
when the flattened boundary count is odd or a day-end marker is not exactly
24h-aligned; resolution is what the analyzer constructor runs, and on any
resolution failure the constructor fails outright, so no partial schedule is
ever applied to an analyzer. -/
theorem C8_invalid_night_schedule :
    (∀ (totalDays : Nat) (bss : List (List Int)),
      resolveOffsets totalDays bss = .error "InvalidNightSchedule" ↔
        ((flattenWithDay 0 bss).length % 2 = 1 ∨
          ∃ p ∈ flattenWithDay 0 bss, misalignedBoundary p.1)) ∧
    (∀ (totalDays : Nat) (inp : NightInput) (bss : List (List Int)),
      (expandNight totalDays inp).mapM (fun bs => bs.mapM nightBoundaryOffset) =
        some bss →
      resolveNight totalDays inp = resolveOffsets totalDays bss) ∧
    (∀ (ts : List Int) (inp : NightInput) (stepD : Int) (so po : Option Int)
       (g dmin : Int) (c thr : Nat) (f : Frame) (e : String),
      mkFrame ts so po = some f → resolveNight f.totalDays inp = .error e →
      mkAnalyzer ts inp stepD so po g dmin c thr = .error e) := by
  refine ⟨fun totalDays bss => ?_, fun totalDays inp bss h => ?_,
    fun ts inp stepD so po g dmin c thr f e hf hres => ?_⟩
  · by_cases hcond : ((flattenWithDay 0 bss).length % 2 = 1 ∨
        ∃ p ∈ flattenWithDay 0 bss, misalignedBoundary p.1)
    · unfold resolveOffsets
      rw [if_pos hcond]
      exact iff_of_true rfl hcond
    · unfold resolveOffsets
      rw [if_neg hcond]
      exact iff_of_false (by simp) hcond
  · unfold resolveNight
    rw [h]
  · simp only [mkAnalyzer, hf, hres]

/-- C6: `filter_inactive` is idempotent — a second call with the same
threshold reproduces the identical day mask (indeed the identical analyzer
state), and `update_bouts` with identical parameters reproduces the
identical cached bout set (indeed the identical state). -/
theorem C6_refilter_rebouts_idempotent (a : Analyzer) (T : Nat)
    (g d : Int) (c : Nat) :
    (filter_inactive T (filter_inactive T a)).mask = (filter_inactive T a).mask ∧
    filter_inactive T (filter_inactive T a) = filter_inactive T a ∧
    (update_bouts g d c (update_bouts g d c a)).bouts =
      (update_bouts g d c a).bouts ∧
    update_bouts g d c (update_bouts g d c a) = update_bouts g d c a :=
  ⟨rfl, rfl, rfl, rfl⟩

/-- C7: the timespec normalizer maps the clock-style string `"06:00"` and
the integer nanosecond count `21600000000000` to the same duration; integer
and native-duration inputs of the same timespan always agree, and a string
agrees with the integer form of whatever it parses to. -/
theorem C7_normalize_agreement :
    Timespec.normalize (.str "06:00") = some 21600000000000 ∧
    Timespec.normalize (.ns 21600000000000) = some 21600000000000 ∧
    Timespec.normalize (.str "06:00") = Timespec.normalize (.ns 21600000000000) ∧
    (∀ n : Int, Timespec.normalize (.ns n) = Timespec.normalize (.dur n)) ∧
    (∀ (s : String) (n : Int), parseClockDuration s = some n →
      Timespec.normalize (.str s) = Timespec.normalize (.ns n)) :=
  ⟨by decide, rfl, by decide, fun _ => rfl, fun s n h => h⟩

/-- C9: time-range selection (`get_data` and `select_dates`) is
start-inclusive and stop-exclusive: a record with timestamp equal to `start`
is kept, one with timestamp equal to `stop` is dropped. -/
theorem C9_start_inclusive_stop_exclusive :
    (∀ (so po : Option Int) (ts : List Int) (t : Int),
      t ∈ get_data so po ts ↔
        t ∈ ts ∧ (∀ s, so = some s → s ≤ t) ∧ (∀ p, po = some p → t < p)) ∧
    (∀ (a b : Int) (ts : List Int), a ∈ ts → a < b →
      a ∈ get_data (some a) (some b) ts) ∧
    (∀ (a b : Int) (ts : List Int), b ∉ get_data (some a) (some b) ts) ∧
    (∀ (so po : Option Int) (anl : Analyzer) (t : Int),
      t ∈ select_dates so po anl ↔
        t ∈ anl.activity ∧ (∀ s, so = some s → s ≤ t) ∧
          (∀ p, po = some p → t < p)) := by
  refine ⟨fun so po ts t => ?_, fun a b ts ha hab => ?_, fun a b ts => ?_,
    fun so po anl t => ?_⟩
  · simp only [get_data, List.mem_filter, inWindow_eq_true_iff]
  · simp only [get_data, List.mem_filter, inWindow_eq_true_iff]
    exact ⟨ha, by simp, by simpa using hab⟩
  · simp only [get_data, List.mem_filter, inWindow_eq_true_iff]
    rintro ⟨-, -, hlt⟩
    exact absurd (hlt b rfl) (lt_irrefl b)
  · simp only [select_dates, List.mem_filter, inWindow_eq_true_iff]

/-- C10: `activity_bouts` is a pure query — it computes the bouts from the
current activity but leaves the cached bout set, day mask, timestamp array
and default parameters untouched; `filter_inactive` also leaves the cached
bouts alone, and only `update_bouts` (`adjust_bouts`) replaces them. -/
theorem C10_activity_bouts_pure (a : Analyzer) (g d : Int) (c T : Nat) :
    (activity_bouts_call g d c a).2 = a ∧
    (activity_bouts_call g d c a).2.bouts = a.bouts ∧
    (activity_bouts_call g d c a).2.mask = a.mask ∧
    (activity_bouts_call g d c a).2.timestamps = a.timestamps ∧
    (activity_bouts_call g d c a).2.max_gap = a.max_gap ∧
    (activity_bouts_call g d c a).2.min_duration = a.min_duration ∧
    (activity_bouts_call g d c a).2.min_count = a.min_count ∧
    (activity_bouts_call g d c a).1 = activityBouts g d c a.activity ∧
    (filter_inactive T a).bouts = a.bouts ∧
    (update_bouts g d c a).bouts = activityBouts g d c a.activity :=
  ⟨rfl, rfl, rfl, rfl, rfl, rfl, rfl, rfl, rfl, rfl⟩

end Chronobiology
